import Mathlib

/-!
Verification development for the book-organizer repository.

The Go sources are shallowly embedded: Go strings become `List Char`,
byte buffers become `List Nat`, the relational store becomes a list of
`Document` rows, and the blob store becomes a list of (key, isDir)
entries.  Each definition carries a doc comment naming the Go function
it embeds.
-/

namespace BookOrganizer

deriving instance DecidableEq for Except

/-- Go strings, embedded as lists of characters. -/
abbrev GoStr := List Char

/-- Byte content of a Go string literal. -/
def strBytes (s : String) : List Nat := s.toList.map Char.toNat

/-! ## File model and the classifier (documents/service.go, isSupported) -/

/-- A `multipart.File`: a byte stream with a read position. -/
structure MFile where
  data : List Nat
  pos : Nat
deriving DecidableEq

/-- PDF signature bytes, from the external filetype library's Pdf matcher:
`%PDF` at offset 0 (library code is a dependency, not part of this repo;
modelled from its published matcher table, which the spec summarises as the
closed supported set). -/
def pdfSig : List Nat := strBytes ("%PDF")

/-- ZIP local-file-header signature, first four bytes of an EPUB container. -/
def zipSig : List Nat := [0x50, 0x4B, 0x03, 0x04]

/-- The mimetype entry an EPUB must carry at offset 30, per the filetype
library's Epub matcher. -/
def epubMime : List Nat := strBytes ("mimetypeapplication/epub+zip")

/-- Filetype library Pdf matcher: `len(buf) > 3` and `%PDF` at offset 0. -/
def matchesPdf (b : List Nat) : Bool :=
  decide (3 < b.length) && decide (b.take 4 = pdfSig)

/-- Filetype library Epub matcher: `len(buf) > 57`, ZIP signature at offset 0
and the epub mimetype bytes at offsets 30..57. -/
def matchesEpub (b : List Nat) : Bool :=
  decide (57 < b.length) && decide (b.take 4 = zipSig)
    && decide ((b.drop 30).take 28 = epubMime)

/-- Outcome kinds of `filetype.Match` that `isSupported` distinguishes. -/
inductive FKind
  | pdf
  | epub
  | other
deriving DecidableEq

/-- Modelled from the spec's classifier contract over the filetype library:
`Match` yields the kind whose signature fires on the buffer.  The Pdf and
Epub matchers are mutually exclusive (first byte `%` vs `P`); every other
recognized-or-unknown kind is collapsed into `other`, which `isSupported`
rejects uniformly.  (The library's within-category matcher ordering is map
iteration; following the spec's closed supported set, Epub is taken to win
over the plain Zip matcher on a genuine EPUB buffer.) -/
def filetypeMatch (b : List Nat) : FKind :=
  if matchesPdf b then .pdf
  else if matchesEpub b then .epub
  else .other

/-- Embedding of `isSupported` (documents service): `io.ReadFull` a 261-byte
head; on `io.EOF` or any other read error return false (without seeking
back); otherwise `Seek(0, SeekStart)` and accept iff the matched kind is
EPUB or PDF.  A short stream yields `ErrUnexpectedEOF` (or `EOF` when empty)
after consuming all remaining bytes. -/
def isSupported (f : MFile) : Bool × MFile :=
  if f.data.length - f.pos < 261 then
    (false, { f with pos := f.data.length })
  else
    let head := (f.data.drop f.pos).take 261
    let f2 : MFile := { f with pos := 0 }
    let kind := filetypeMatch head
    if kind ≠ FKind.epub ∧ kind ≠ FKind.pdf then (false, f2) else (true, f2)

/-! ## Data model (documents/service.go, type Document) -/

/-- The `Document` entity.  `Created` is a timestamp (modelled as `Nat`),
`Updated` is nullable (`*time.Time` becomes `Option Nat`). -/
structure Document where
  id : GoStr
  displayName : GoStr
  name : GoStr
  path : GoStr
  type : GoStr
  description : GoStr
  tags : List GoStr
  created : Nat
  updated : Option Nat
deriving DecidableEq

/-- The Go zero value of `Document`, as produced by `&documents.Document{}`
before a failed `row.Scan`. -/
def zeroDoc : Document :=
  { id := [], displayName := [], name := [], path := [], type := []
    description := [], tags := [], created := 0, updated := none }

/-- Error values crossing the service boundary: the sentinel
`ErrInvalidFileType`, `errors.New` messages, and `errors.Wrap` which keeps
its cause. -/
inductive SvcErr
  | invalidFileType
  | errNew (msg : GoStr)
  | wrap (msg : GoStr) (cause : SvcErr)
deriving DecidableEq

/-! ## UUIDs (google/uuid) -/

/-- Lower-case hexadecimal digit. -/
def hexDigit (n : Nat) : Char :=
  if n < 10 then Char.ofNat (48 + n) else Char.ofNat (87 + n)

/-- Two-character hex rendering of one byte. -/
def byteHex (b : Nat) : GoStr := [hexDigit (b / 16 % 16), hexDigit (b % 16)]

/-- Hex rendering of a byte list. -/
def hexBytes (bs : List Nat) : GoStr :=
  bs.foldr (fun b acc => byteHex b ++ acc) []

/-- `uuid.New().String()`: the sixteen random bytes rendered as the
hyphenated 8-4-4-4-12 form.  The randomness source is a parameter of the
model (`bs`); the formatting is what the code relies on. -/
def uuidFormat (bs : List Nat) : GoStr :=
  hexBytes (bs.take 4) ++ '-' ::
    (hexBytes ((bs.drop 4).take 2) ++ '-' ::
      (hexBytes ((bs.drop 6).take 2) ++ '-' ::
        (hexBytes ((bs.drop 8).take 2) ++ '-' :: hexBytes (bs.drop 10))))

/-! ## Repository adapter (database/postgres.go) -/

/-- The literal `"book"` used throughout the services. -/
def bookStr : GoStr := "book".toList

/-- The literal `"paper"`, the only other member of the closed type set. -/
def paperStr : GoStr := "paper".toList

/-- Embedding of `PostgresDatabase.FindByID`: the single-row query scans
into a zero-valued `Document`; a scan failure (including the no-row case)
is only logged (`logrus.Warn`) and the function returns the document as it
stands with a nil error.  Hence: first row whose id matches, or the zero
value — never an error. -/
def pgFindByID : List Document → GoStr → Document
  | [], _ => zeroDoc
  | r :: rest, i => if r.id = i then r else pgFindByID rest i

/-- Embedding of `PostgresDatabase.existsByPath`: `count(id) where path = p`
compared with zero.  The scan error is logged only; the count test is the
sole outcome. -/
def existsByPath : List Document → GoStr → Bool
  | [], _ => false
  | r :: rest, p => decide (r.path = p) || existsByPath rest p

/-- Embedding of `PostgresDatabase.UpdateDocument`: an UPDATE setting
description, display_name, type and `updated = time.Now()` on every row
whose id matches, returning the (unrefreshed) input document. -/
def pgUpdateDocument (rows : List Document) (doc : Document) (now : Nat) :
    Document × List Document :=
  (doc,
    rows.map fun r =>
      if r.id = doc.id then
        { r with description := doc.description,
                 displayName := doc.displayName,
                 type := doc.type,
                 updated := some now }
      else r)

/-- Embedding of `PostgresDatabase.Insert`: append the row (the in-model
database never fails; dependency failures are outside the pure model). -/
def pgInsert (rows : List Document) (doc : Document) : List Document :=
  rows ++ [doc]

/-- Embedding of `PostgresDatabase.UpsertStream`: drain the stream; for each
document skip when a row with its path exists, otherwise insert and count.
Returns the final rows and the number of inserts. -/
def upsertStream : List Document → List Document → List Document × Nat
  | rows, [] => (rows, 0)
  | rows, d :: ds =>
    if existsByPath rows d.path = true then upsertStream rows ds
    else
      ((upsertStream (pgInsert rows d) ds).1,
       (upsertStream (pgInsert rows d) ds).2 + 1)

/-! ## Document service (documents/service.go) -/

/-- State touched by `Add`: blob-store writes and metadata rows. -/
structure SvcState where
  saves : List (GoStr × List Nat)
  rows : List Document
deriving DecidableEq

/-- Embedding of `documentService.Add`: reject with `ErrInvalidFileType`
when the classifier refuses (before any side effect); otherwise save the
stream under `doc.Name` (`BucketStorage.Save` returns the file name as the
path), stamp a fresh id, `Created = Updated = now`, and insert the row.
The fire-and-forget cover call has no effect on this state. -/
def serviceAdd (st : SvcState) (f : MFile) (doc : Document)
    (ubytes : List Nat) (now : Nat) : Except SvcErr Document × SvcState :=
  if (isSupported f).1 = false then (.error .invalidFileType, st)
  else
    let d2 : Document :=
      { doc with id := uuidFormat ubytes, path := doc.name,
                 created := now, updated := some now }
    (.ok d2,
     { saves := st.saves ++ [(doc.name, f.data)], rows := pgInsert st.rows d2 })

/-- Embedding of `books.service.Add`: force `Type = "book"` on the draft and
forward to the document service, wrapping any error. -/
def bookAdd (st : SvcState) (f : MFile) (book : Document)
    (ubytes : List Nat) (now : Nat) : Except SvcErr Document × SvcState :=
  match serviceAdd st f { book with type := bookStr } ubytes now with
  | (.error e, st2) =>
      (.error (.wrap ("failed to store data in repo".toList) e), st2)
  | ok => ok

/-- Embedding of `documentService.FindByID`: the repository lookup (which,
per `pgFindByID`, never returns an error), then `storage.Get` on the row's
path; a storage failure is wrapped, success overwrites the path with the
signed access path. -/
def serviceFindByID (rows : List Document)
    (storageGet : GoStr → Except GoStr GoStr) (id : GoStr) :
    Except SvcErr Document :=
  let entity := pgFindByID rows id
  match storageGet entity.path with
  | .error e => .error (.wrap ("unable to get path from storage".toList) (.errNew e))
  | .ok p => .ok { entity with path := p }

/-- Embedding of `documentService.UpdateFields`: look the entity up (the
repository never errors and never yields nil, so the two error guards are
dead), merge each non-empty field, validate the type against
{book, paper}, and on success run the repository update.  Returns the
result together with the repository rows after the call. -/
def updateFields (rows : List Document) (id : GoStr) (upd : Document)
    (now : Nat) : Except SvcErr Document × List Document :=
  let entity := pgFindByID rows id
  let e1 := if upd.description ≠ [] then
              { entity with description := upd.description } else entity
  let e2 := if upd.displayName ≠ [] then
              { e1 with displayName := upd.displayName } else e1
  if upd.type ≠ [] then
    if upd.type = bookStr ∨ upd.type = paperStr then
      let r := pgUpdateDocument rows { e2 with type := upd.type } now
      (.ok r.1, r.2)
    else (.error (.errNew ("unsupported type".toList)), rows)
  else
    let r := pgUpdateDocument rows e2 now
    (.ok r.1, r.2)

/-! ## Scan pipeline (documents/service.go, Scan; common/storage.go, List) -/

/-- The `.pdf` extension literal the scan filters on. -/
def pdfExt : GoStr := ['.', 'p', 'd', 'f']

/-- Helper for `filepath.Ext`: walk the reversed path, stopping at a path
separator; on the first dot, the extension is the dot plus the characters
already passed (kept in original order in `acc`). -/
def extGo : GoStr → GoStr → GoStr
  | [], _ => []
  | c :: rest, acc =>
    if c = '/' then []
    else if c = '.' then '.' :: acc
    else extGo rest (c :: acc)

/-- Embedding of `filepath.Ext`: the suffix from the final dot in the final
path element, empty when that element has no dot. -/
def filepathExt (p : GoStr) : GoStr := extGo p.reverse []

/-- Fuel-bounded worker for `strings.ReplaceAll(s, pat, "")`: delete every
non-overlapping occurrence of `pat`, scanning left to right.  Every step
strictly shrinks the string, so fuel `s.length` is always enough; the fuel
only makes the recursion structural. -/
def replaceAllF : Nat → GoStr → GoStr → GoStr
  | 0, s, _ => s
  | fuel + 1, s, pat =>
    match s with
    | [] => []
    | c :: rest =>
      if pat ≠ [] ∧ pat.isPrefixOf (c :: rest) then
        replaceAllF fuel ((c :: rest).drop pat.length) pat
      else
        c :: replaceAllF fuel rest pat

/-- Embedding of `strings.ReplaceAll(s, pat, "")`.  (An empty pattern
leaves the string unchanged under empty replacement, matching Go.) -/
def replaceAll (s pat : GoStr) : GoStr := replaceAllF s.length s pat

theorem replaceAllF_fuel_irrel (f1 : Nat) : ∀ (f2 : Nat) (s pat : GoStr),
    s.length ≤ f1 → s.length ≤ f2 → replaceAllF f1 s pat = replaceAllF f2 s pat := by
  induction f1 with
  | zero =>
    intro f2 s pat h1 _
    have : s = [] := List.eq_nil_of_length_eq_zero (Nat.le_zero.mp h1)
    subst this
    cases f2 <;> simp [replaceAllF]
  | succ n ih =>
    intro f2 s pat h1 h2
    cases s with
    | nil => cases f2 <;> simp [replaceAllF]
    | cons c rest =>
      cases f2 with
      | zero => simp at h2
      | succ m =>
        simp only [replaceAllF]
        by_cases h : pat ≠ [] ∧ pat.isPrefixOf (c :: rest)
        · rw [if_pos h, if_pos h]
          have hp : 0 < pat.length := List.length_pos.mpr h.1
          have hd : ((c :: rest).drop pat.length).length ≤ n := by
            simp only [List.length_drop, List.length_cons]
            simp only [List.length_cons] at h1
            omega
          have hd2 : ((c :: rest).drop pat.length).length ≤ m := by
            simp only [List.length_drop, List.length_cons]
            simp only [List.length_cons] at h2
            omega
          exact ih m _ pat hd hd2
        · rw [if_neg h, if_neg h]
          have hr : rest.length ≤ n := by
            simp only [List.length_cons] at h1; omega
          have hr2 : rest.length ≤ m := by
            simp only [List.length_cons] at h2; omega
          rw [ih m rest pat hr hr2]

theorem replaceAll_nil (pat : GoStr) : replaceAll [] pat = [] := by
  simp [replaceAll, replaceAllF]

theorem replaceAll_cons_match (c : Char) (rest pat : GoStr)
    (h : pat ≠ [] ∧ pat.isPrefixOf (c :: rest)) :
    replaceAll (c :: rest) pat = replaceAll ((c :: rest).drop pat.length) pat := by
  have hp : 0 < pat.length := List.length_pos.mpr h.1
  simp only [replaceAll, List.length_cons, replaceAllF, if_pos h]
  apply replaceAllF_fuel_irrel
  · simp only [List.length_drop, List.length_cons]; omega
  · exact Nat.le_refl _

theorem replaceAll_cons_nomatch (c : Char) (rest pat : GoStr)
    (h : ¬(pat ≠ [] ∧ pat.isPrefixOf (c :: rest))) :
    replaceAll (c :: rest) pat = c :: replaceAll rest pat := by
  simp only [replaceAll, List.length_cons, replaceAllF, if_neg h]

/-- Split a path on `/` (components of `filepath.Clean`'s input). -/
def splitSlash : GoStr → List GoStr
  | [] => [[]]
  | c :: rest =>
    if c = '/' then [] :: splitSlash rest
    else
      match splitSlash rest with
      | [] => [[c]]
      | s :: ss => (c :: s) :: ss

/-- One step of `filepath.Clean`'s element processing (stack kept
reversed): drop empty and `.` elements, resolve `..` against the stack
(dropped at the root when rooted, kept when relative), push anything else. -/
def cleanStep (rooted : Bool) (acc : List GoStr) (c : GoStr) : List GoStr :=
  if c = [] ∨ c = ['.'] then acc
  else if c = ['.', '.'] then
    match acc with
    | [] => if rooted then [] else [c]
    | top :: tl => if top = ['.', '.'] then c :: acc else tl
  else c :: acc

/-- Join path components with single slashes. -/
def joinSlash : List GoStr → GoStr
  | [] => []
  | [s] => s
  | s :: rest => s ++ '/' :: joinSlash rest

/-- Embedding of `filepath.Clean` via its documented rules: iteratively
replace slash runs, drop `.` elements, resolve `..`, keep a leading slash
for rooted paths, and return `.` for an emptied relative path. -/
def clean (p : GoStr) : GoStr :=
  match p with
  | [] => ['.']
  | c :: _ =>
    let rooted := c = '/'
    let comps := ((splitSlash p).foldl (cleanStep rooted) []).reverse
    if rooted then '/' :: joinSlash comps
    else if comps = [] then ['.']
    else joinSlash comps

/-- Helper for `filepath.Dir`: scanning the reversed path, return the
original-order prefix of `p` up to and including its last separator
(`p[:i+1]`), or none when there is no separator. -/
def upToLastSlashRev : GoStr → Option GoStr
  | [] => none
  | c :: rest => if c = '/' then some ((c :: rest).reverse) else upToLastSlashRev rest

/-- Embedding of `filepath.Dir`: `Clean` of everything up to the final
separator; `Clean("")` — i.e. `.` — when the path has no separator. -/
def filepathDir (p : GoStr) : GoStr :=
  match upToLastSlashRev p.reverse with
  | none => clean []
  | some pre => clean pre

/-- The scan loop's display-name derivation for a key that passed the
`.pdf` filter: remove every occurrence of the extension, then every
occurrence of `filepath.Dir(path)`, then inspect `name[0]` — which panics
(modelled as `none`) when the intermediate string is empty — and strip a
leading slash. -/
def deriveName (path : GoStr) : Option GoStr :=
  let ext := filepathExt path
  let n1 := replaceAll path ext
  let n2 := replaceAll n1 (filepathDir path)
  match n2 with
  | [] => none
  | c :: rest => some (if c = '/' then rest else c :: rest)

/-- The draft `Document` the scan synthesizes for a key: fresh id, display
name = stored name = derived name, type `book`, created = now, path = key,
no update timestamp. -/
def mkScanDoc (key nm : GoStr) (ubytes : List Nat) (now : Nat) : Document :=
  { id := uuidFormat ubytes, displayName := nm, name := nm, path := key,
    type := bookStr, description := [], tags := [], created := now,
    updated := none }

/-- The scan producer loop over the enumerated keys: skip keys whose
extension is not `.pdf`, derive the name (propagating the `name[0]` panic
as `none` for the whole run), and synthesize one document per surviving
key.  `u n` supplies the sixteen random bytes of the n-th fresh uuid. -/
def scanGo : List GoStr → (Nat → List Nat) → Nat → Option (List Document)
  | [], _, _ => some []
  | k :: rest, u, now =>
    if filepathExt k = pdfExt then
      match deriveName k with
      | none => none
      | some nm =>
        match scanGo rest (fun i => u (i + 1)) now with
        | none => none
        | some ds => some (mkScanDoc k nm (u 0) now :: ds)
    else scanGo rest u now

/-- The keys surviving the scan's extension filter. -/
def pdfFilter (keys : List GoStr) : List GoStr :=
  keys.filter fun k => decide (filepathExt k = pdfExt)

/-- Index-aware map used to state what `scanGo` produces. -/
def mapIdxD : (Nat → GoStr → Document) → List GoStr → List Document
  | _, [] => []
  | f, k :: rest => f 0 k :: mapIdxD (fun i => f (i + 1)) rest

/-- Embedding of `BucketStorage.List`: enumerate keys, skipping directory
markers (`obj.IsDir`). -/
def listKeys (store : List (GoStr × Bool)) : List GoStr :=
  (store.filter fun e => !e.2).map fun e => e.1

/-- Occurrence test: does `pat` occur as a contiguous substring of `s`
(including the trivial occurrence at the end when `pat` is empty)? -/
def hasMatch : GoStr → GoStr → Bool
  | [], pat => pat.isPrefixOf []
  | c :: rest, pat => pat.isPrefixOf (c :: rest) || hasMatch rest pat

/-! ## Helper lemmas -/

theorem uuidFormat_ne_nil (bs : List Nat) : uuidFormat bs ≠ [] := by
  intro h
  have hlen := congrArg List.length h
  simp [uuidFormat, List.length_append] at hlen

theorem pgFindByID_not_found (rows : List Document) (id : GoStr)
    (h : ∀ r ∈ rows, ¬ r.id = id) : pgFindByID rows id = zeroDoc := by
  induction rows with
  | nil => rfl
  | cons r rest ih =>
    simp only [pgFindByID]
    rw [if_neg (h r (List.mem_cons_self r rest))]
    exact ih fun r' hr' => h r' (List.mem_cons_of_mem r hr')

theorem pgFindByID_unique (rows : List Document) (dOld : Document) (id : GoStr)
    (hmem : dOld ∈ rows) (hid : dOld.id = id)
    (huniq : ∀ r ∈ rows, r.id = id → r = dOld) : pgFindByID rows id = dOld := by
  induction rows with
  | nil => cases hmem
  | cons r rest ih =>
    simp only [pgFindByID]
    by_cases hr : r.id = id
    · rw [if_pos hr, huniq r (List.mem_cons_self r rest) hr]
    · rw [if_neg hr]
      have hmem' : dOld ∈ rest := by
        cases List.mem_cons.mp hmem with
        | inl he => exact absurd (he ▸ hid) hr
        | inr hm => exact hm
      exact ih hmem' fun r' hr' => huniq r' (List.mem_cons_of_mem r hr')

theorem replaceAll_no_match (s pat : GoStr) (h : hasMatch s pat = false) :
    replaceAll s pat = s := by
  induction s with
  | nil => exact replaceAll_nil pat
  | cons c rest ih =>
    simp only [hasMatch, Bool.or_eq_false_iff] at h
    rw [replaceAll_cons_nomatch c rest pat (by
      rintro ⟨-, hpre⟩
      rw [h.1] at hpre
      cases hpre)]
    rw [ih h.2]

theorem replaceAll_pre (s pat : GoStr) (hp : pat ≠ []) :
    replaceAll (pat ++ s) pat = replaceAll s pat := by
  cases pat with
  | nil => exact absurd rfl hp
  | cons p pt =>
    rw [List.cons_append,
        replaceAll_cons_match p (pt ++ s) (p :: pt)
          ⟨hp, by
            rw [ List.isPrefixOf_iff_prefix, ← List.cons_append]
            exact List.prefix_append (p :: pt) s⟩]
    congr 1
    rw [← List.cons_append, List.drop_left]

theorem replaceAll_sentinel (s : GoStr) (pc : Char) (pt : GoStr)
    (h : pc ∉ s) : replaceAll (s ++ pc :: pt) (pc :: pt) = s := by
  induction s with
  | nil =>
    rw [List.nil_append,
        replaceAll_cons_match pc pt (pc :: pt)
          ⟨by simp, by rw [ List.isPrefixOf_iff_prefix]⟩,
        List.drop_length, replaceAll_nil]
  | cons c rest ih =>
    have hc : c ≠ pc := fun he => h (he ▸ List.mem_cons_self c rest)
    rw [List.cons_append,
        replaceAll_cons_nomatch c (rest ++ pc :: pt) (pc :: pt) (by
          rintro ⟨-, hpre⟩
          simp only [List.isPrefixOf, Bool.and_eq_true, beq_iff_eq] at hpre
          exact hc hpre.1.symm)]
    rw [ih fun hm => h (List.mem_cons_of_mem c hm)]

theorem ne_head_of_not_mem {x c : Char} {rest : List Char}
    (h : x ∉ c :: rest) : ¬ c = x := by
  intro he
  subst he
  exact h (List.mem_cons_self c rest)

theorem not_mem_tail {x c : Char} {rest : List Char}
    (h : x ∉ c :: rest) : x ∉ rest :=
  fun hm => h (List.mem_cons_of_mem c hm)

theorem filepathExt_append_pdf (p : GoStr) : filepathExt (p ++ pdfExt) = pdfExt := by
  have hrev : (p ++ pdfExt).reverse = 'f' :: 'd' :: 'p' :: '.' :: p.reverse := by
    simp [pdfExt, List.reverse_append]
  simp [filepathExt, hrev, extGo, pdfExt]

theorem upToLastSlashRev_hit (x y : GoStr) (h : '/' ∉ x) :
    upToLastSlashRev (x ++ '/' :: y) = some (('/' :: y).reverse) := by
  induction x with
  | nil => simp [upToLastSlashRev]
  | cons c rest ih =>
    simp only [List.cons_append, upToLastSlashRev]
    rw [if_neg (ne_head_of_not_mem h)]
    exact ih (not_mem_tail h)

theorem filepathDir_nice (d tail : GoStr) (ht : '/' ∉ tail) :
    filepathDir (d ++ '/' :: tail) = clean (d ++ ['/']) := by
  have hrev : (d ++ '/' :: tail).reverse = tail.reverse ++ '/' :: d.reverse := by
    simp [List.reverse_append]
  have hx : '/' ∉ tail.reverse := by simpa using ht
  simp only [filepathDir, hrev, upToLastSlashRev_hit tail.reverse d.reverse hx]
  simp

theorem splitSlash_no_slash (d : GoStr) (h : '/' ∉ d) :
    splitSlash (d ++ ['/']) = [d, []] := by
  induction d with
  | nil => simp [splitSlash]
  | cons c rest ih =>
    simp only [List.cons_append, splitSlash]
    rw [if_neg (ne_head_of_not_mem h)]
    simp only [List.append_eq] at ih ⊢
    rw [ih (not_mem_tail h)]

theorem clean_dir (d : GoStr) (hne : d ≠ []) (hs : '/' ∉ d) (hdot : '.' ∉ d) :
    clean (d ++ ['/']) = d := by
  cases d with
  | nil => exact absurd rfl hne
  | cons c rest =>
    have hc : ¬ c = '/' := ne_head_of_not_mem hs
    have hsplit := splitSlash_no_slash (c :: rest) hs
    have hd1 : ¬ (c :: rest = [] ∨ c :: rest = ['.']) := by
      rintro (he | he)
      · cases he
      · apply hdot
        injection he with h1 _
        rw [h1]
        exact List.mem_cons_self _ _
    have hd2 : ¬ c :: rest = ['.', '.'] := by
      intro he
      apply hdot
      injection he with h1 _
      rw [h1]
      exact List.mem_cons_self _ _
    rw [List.cons_append] at hsplit ⊢
    simp only [clean, hsplit, List.foldl_cons, List.foldl_nil, cleanStep,
      if_neg hd1, if_neg hd2]
    simp [hc, joinSlash]

theorem deriveName_nice (d b : GoStr) (hne : d ≠ []) (hds : '/' ∉ d)
    (hdd : '.' ∉ d) (hbs : '/' ∉ b) (hbd : '.' ∉ b)
    (hm : hasMatch ('/' :: b) d = false) :
    deriveName (d ++ '/' :: (b ++ pdfExt)) = some b := by
  have hassoc : d ++ '/' :: (b ++ pdfExt) = (d ++ '/' :: b) ++ pdfExt := by
    simp
  have hext : filepathExt (d ++ '/' :: (b ++ pdfExt)) = pdfExt := by
    rw [hassoc]; exact filepathExt_append_pdf (d ++ '/' :: b)
  have hdot : '.' ∉ d ++ '/' :: b := by
    intro hmem
    rcases List.mem_append.mp hmem with h1 | h1
    · exact hdd h1
    · rcases List.mem_cons.mp h1 with h2 | h2
      · cases h2
      · exact hbd h2
  have hn1 : replaceAll (d ++ '/' :: (b ++ pdfExt)) pdfExt = d ++ '/' :: b := by
    rw [hassoc]
    exact replaceAll_sentinel (d ++ '/' :: b) '.' ['p', 'd', 'f'] hdot
  have hslash : '/' ∉ b ++ pdfExt := by
    intro hmem
    rcases List.mem_append.mp hmem with h1 | h1
    · exact hbs h1
    · simp [pdfExt] at h1
  have hdir : filepathDir (d ++ '/' :: (b ++ pdfExt)) = d := by
    rw [filepathDir_nice d (b ++ pdfExt) hslash]
    exact clean_dir d hne hds hdd
  have hn2 : replaceAll (d ++ '/' :: b) d = '/' :: b := by
    rw [replaceAll_pre ('/' :: b) d hne]
    exact replaceAll_no_match ('/' :: b) d hm
  simp only [deriveName, hext, hn1, hdir, hn2]
  simp

theorem scanGo_eq (keys : List GoStr) : ∀ (u : Nat → List Nat) (now : Nat),
    (∀ k ∈ keys, filepathExt k = pdfExt → (deriveName k).isSome) →
    scanGo keys u now =
      some (mapIdxD
        (fun i k => mkScanDoc k ((deriveName k).getD []) (u i) now)
        (pdfFilter keys)) := by
  induction keys with
  | nil => intro u now _; simp [scanGo, pdfFilter, mapIdxD]
  | cons k rest ih =>
    intro u now h
    by_cases hk : filepathExt k = pdfExt
    · have hsome := h k (List.mem_cons_self k rest) hk
      obtain ⟨nm, hnm⟩ := Option.isSome_iff_exists.mp hsome
      have hrest := ih (fun i => u (i + 1)) now
        (fun k' hk' he => h k' (List.mem_cons_of_mem k hk') he)
      simp only [scanGo, if_pos hk, hnm, hrest]
      have hfilter : pdfFilter (k :: rest) = k :: pdfFilter rest := by
        simp [pdfFilter, List.filter_cons, hk]
      rw [hfilter]
      simp only [mapIdxD, hnm, Option.getD_some]
    · have hrest := ih u now
        (fun k' hk' he => h k' (List.mem_cons_of_mem k hk') he)
      simp only [scanGo, if_neg hk, hrest]
      have hfilter : pdfFilter (k :: rest) = pdfFilter rest := by
        simp [pdfFilter, List.filter_cons, hk]
      rw [hfilter]

theorem scanGo_paths (keys : List GoStr) : ∀ (u : Nat → List Nat) (now : Nat)
    (ds : List Document), scanGo keys u now = some ds →
    ds.map (fun d => d.path) = pdfFilter keys := by
  induction keys with
  | nil =>
    intro u now ds h
    simp only [scanGo, Option.some_inj] at h
    subst h
    simp [pdfFilter]
  | cons k rest ih =>
    intro u now ds h
    by_cases hk : filepathExt k = pdfExt
    · simp only [scanGo, if_pos hk] at h
      cases hder : deriveName k with
      | none => rw [hder] at h; cases h
      | some nm =>
        rw [hder] at h
        cases hrest : scanGo rest (fun i => u (i + 1)) now with
        | none => rw [hrest] at h; cases h
        | some ds0 =>
          rw [hrest, Option.some_inj] at h
          subst h
          have hfilter : pdfFilter (k :: rest) = k :: pdfFilter rest := by
            simp [pdfFilter, List.filter_cons, hk]
          simp only [List.map_cons, mkScanDoc, hfilter,
            ih (fun i => u (i + 1)) now ds0 hrest]
    · simp only [scanGo, if_neg hk] at h
      have hfilter : pdfFilter (k :: rest) = pdfFilter rest := by
        simp [pdfFilter, List.filter_cons, hk]
      rw [hfilter]
      exact ih u now ds h

theorem existsByPath_append (a b : List Document) (p : GoStr) :
    existsByPath (a ++ b) p = (existsByPath a p || existsByPath b p) := by
  induction a with
  | nil => simp [existsByPath]
  | cons r rest ih => simp [existsByPath, ih, Bool.or_assoc]

theorem upsert_mono (ds : List Document) : ∀ (rows : List Document) (p : GoStr),
    existsByPath rows p = true →
    existsByPath (upsertStream rows ds).1 p = true := by
  induction ds with
  | nil => intro rows p h; simpa [upsertStream] using h
  | cons d ds ih =>
    intro rows p h
    simp only [upsertStream]
    by_cases he : existsByPath rows d.path = true
    · rw [if_pos he]; exact ih rows p h
    · rw [if_neg he]
      exact ih (pgInsert rows d) p
        (by rw [pgInsert, existsByPath_append, h, Bool.true_or])

theorem upsert_covers (ds : List Document) : ∀ (rows : List Document)
    (d : Document), d ∈ ds →
    existsByPath (upsertStream rows ds).1 d.path = true := by
  induction ds with
  | nil => intro rows d h; cases h
  | cons d0 ds ih =>
    intro rows d hd
    simp only [upsertStream]
    by_cases he : existsByPath rows d0.path = true
    · rw [if_pos he]
      cases List.mem_cons.mp hd with
      | inl heq => subst heq; exact upsert_mono ds rows d.path he
      | inr hm => exact ih rows d hm
    · rw [if_neg he]
      cases List.mem_cons.mp hd with
      | inl heq =>
        subst heq
        exact upsert_mono ds (pgInsert rows d) d.path
          (by simp [pgInsert, existsByPath_append, existsByPath])
      | inr hm => exact ih (pgInsert rows d0) d hm

theorem upsert_noop (ds : List Document) : ∀ (rows : List Document),
    (∀ d ∈ ds, existsByPath rows d.path = true) →
    upsertStream rows ds = (rows, 0) := by
  induction ds with
  | nil => intro rows _; rfl
  | cons d ds ih =>
    intro rows h
    simp only [upsertStream]
    rw [if_pos (h d (List.mem_cons_self d ds))]
    exact ih rows fun d' hd' => h d' (List.mem_cons_of_mem d hd')

/-! ## Claim theorems -/

/-- Claim C1, counterexample: with an empty metadata store and a storage
layer that resolves any path, `FindByID` on an unknown identifier does NOT
fail — it returns a (zero-valued) `Document`, because the repository
swallows the no-row scan error.  This falsifies the claim that such a
lookup fails with a NotFound error and returns no document. -/
theorem c1_unknown_id_returns_document :
    serviceFindByID [] (fun _ => .ok ("signed-url".toList)) ("missing".toList)
      = .ok { zeroDoc with path := "signed-url".toList } := by
  rfl

/-- Claim C1, amended: a lookup with an identifier matching no stored row
never produces a NotFound error.  The repository returns the zero-valued
document with a nil error, so the service either succeeds — returning that
zero document with its (empty) path overwritten by the storage access
path — or fails with the generic wrapped storage error, depending only on
the storage call. -/
theorem c1_unknown_id_no_notfound (rows : List Document)
    (storageGet : GoStr → Except GoStr GoStr) (id : GoStr)
    (h : ∀ r ∈ rows, ¬ r.id = id) :
    serviceFindByID rows storageGet id =
      match storageGet [] with
      | .ok p => .ok { zeroDoc with path := p }
      | .error e =>
          .error (.wrap ("unable to get path from storage".toList) (.errNew e)) := by
  have hz : pgFindByID rows id = zeroDoc := pgFindByID_not_found rows id h
  have hzp : zeroDoc.path = [] := rfl
  simp only [serviceFindByID, hz, hzp]
  cases storageGet [] <;> rfl

/-- Witness for C1's amended theorem at a concrete store. -/
theorem c1_unknown_id_no_notfound_witness :
    (∀ r ∈ ([] : List Document), ¬ r.id = ("x".toList)) ∧
      serviceFindByID [] (fun _ => .ok ("u".toList)) ("x".toList)
        = .ok { zeroDoc with path := "u".toList } :=
  ⟨by simp,
   c1_unknown_id_no_notfound [] (fun _ => .ok ("u".toList)) ("x".toList) (by simp)⟩

/-- Claim C2, counterexample: the four-byte stream `%PDF` begins with the
recognized PDF signature (the library's Pdf matcher fires on its content),
yet `isSupported` rejects it, because `io.ReadFull` cannot supply the full
261-byte prefix. -/
theorem c2_signature_stream_rejected :
    matchesPdf (strBytes ("%PDF")) = true ∧
      (isSupported ⟨strBytes ("%PDF"), 0⟩).1 = false := by
  decide

/-- Claim C2, amended: a stream (read from its start) is accepted exactly
when it holds at least 261 bytes and its 261-byte prefix carries a
recognized PDF or EPUB signature; every other stream — including
signature-bearing streams shorter than 261 bytes — is rejected. -/
theorem c2_classifier_characterization (data : List Nat) :
    (isSupported ⟨data, 0⟩).1 =
      (decide (261 ≤ data.length) &&
        (matchesPdf (data.take 261) || matchesEpub (data.take 261))) := by
  simp only [isSupported, Nat.sub_zero, List.drop_zero]
  by_cases h : data.length < 261
  · rw [if_pos h]
    have h2 : ¬ 261 ≤ data.length := by omega
    simp [h2]
  · rw [if_neg h]
    have h2 : decide (261 ≤ data.length) = true := decide_eq_true (by omega)
    rw [h2, Bool.true_and]
    by_cases hp : matchesPdf (data.take 261) = true
    · simp [filetypeMatch, hp]
    · by_cases he : matchesEpub (data.take 261) = true
      · simp [filetypeMatch, hp, he]
      · simp [filetypeMatch, hp, he]

/-- Claim C3: whenever the classifier rejects the stream, `Add` fails with
the `ErrInvalidFileType` sentinel and the service state is untouched — no
blob-store save and no repository insert happen. -/
theorem c3_reject_no_side_effects (st : SvcState) (f : MFile) (doc : Document)
    (ubytes : List Nat) (now : Nat) (h : (isSupported f).1 = false) :
    serviceAdd st f doc ubytes now = (.error .invalidFileType, st) := by
  simp [serviceAdd, h]

/-- Witness for C3 at a concrete rejected stream and non-empty state. -/
theorem c3_reject_no_side_effects_witness :
    (isSupported ⟨strBytes ("ABCD"), 0⟩).1 = false ∧
      serviceAdd ⟨[(("k".toList), [1])], [zeroDoc]⟩ ⟨strBytes ("ABCD"), 0⟩
          zeroDoc [7] 3
        = (.error .invalidFileType, ⟨[(("k".toList), [1])], [zeroDoc]⟩) :=
  ⟨by decide,
   c3_reject_no_side_effects ⟨[(("k".toList), [1])], [zeroDoc]⟩
     ⟨strBytes ("ABCD"), 0⟩ zeroDoc [7] 3 (by decide)⟩

/-- Claim C4, counterexample: classifying the four-byte stream `%PDF` from
its start leaves the read position at end-of-stream (4), not at its
initial position (0) — the failed `ReadFull` path never seeks back. -/
theorem c4_position_not_restored :
    ¬ (isSupported ⟨strBytes ("%PDF"), 0⟩).2.pos
        = (⟨strBytes ("%PDF"), 0⟩ : MFile).pos := by
  decide

/-- Claim C4, amended: for a stream read from its start, the position after
classification is the start again whenever the full 261-byte prefix was
available (accept or reject alike); when the stream is shorter, the cursor
is left at end-of-stream, which coincides with the start only for the empty
stream. -/
theorem c4_position_after_classification (data : List Nat) :
    (isSupported ⟨data, 0⟩).2.pos
      = if 261 ≤ data.length then 0 else data.length := by
  simp only [isSupported, Nat.sub_zero]
  by_cases h : data.length < 261
  · rw [if_pos h, if_neg (show ¬ 261 ≤ data.length by omega)]
  · rw [if_neg h, if_pos (show 261 ≤ data.length by omega)]
    split <;> rfl

/-- Claim C5, counterexample: for the key `ab/ab.pdf` the scan synthesizes
a document whose display name is empty — not `ab`, the key with directory
and extension stripped — because `strings.ReplaceAll` also deletes the
occurrence of the directory name inside the file name. -/
theorem c5_derived_name_collision :
    deriveName ("ab/ab.pdf".toList) = some [] ∧
      ¬ deriveName ("ab/ab.pdf".toList) = some ("ab".toList) ∧
      scanGo [("ab/ab.pdf".toList)] (fun _ => [0]) 4
        = some [mkScanDoc ("ab/ab.pdf".toList) [] [0] 4] := by
  decide

/-- Claim C5, amended: over any enumerated keys (and provided no key hits
the empty-name panic), the scan synthesizes exactly one document per key
with extension `.pdf`, in order, with a fresh identifier, type `book`,
created = now, path = the original key, and display name = stored name =
the derived name — which is the key with every occurrence of the extension
string and of the directory name deleted and a leading slash dropped.  For
a key `d/b.pdf` in which no other dot or slash occurs and the directory
name does not occur in `/b`, this equals `b`, the basename without
extension. -/
theorem c5_scan_characterization :
    (∀ (keys : List GoStr) (u : Nat → List Nat) (now : Nat),
        (∀ k ∈ keys, filepathExt k = pdfExt → (deriveName k).isSome) →
        scanGo keys u now =
          some (mapIdxD
            (fun i k => mkScanDoc k ((deriveName k).getD []) (u i) now)
            (pdfFilter keys)))
    ∧ (∀ d b : GoStr, d ≠ [] → '/' ∉ d → '.' ∉ d → '/' ∉ b → '.' ∉ b →
        hasMatch ('/' :: b) d = false →
        deriveName (d ++ '/' :: (b ++ pdfExt)) = some b) :=
  ⟨scanGo_eq, fun d b h1 h2 h3 h4 h5 h6 => deriveName_nice d b h1 h2 h3 h4 h5 h6⟩

/-- Witness for C5's amended theorem: the spec's own example store (after
the directory marker is filtered) and a well-shaped key. -/
theorem c5_scan_characterization_witness :
    scanGo [("a.pdf".toList), ("b.txt".toList)] (fun _ => [0]) 7
        = some [mkScanDoc ("a.pdf".toList) ("a".toList) [0] 7] ∧
      deriveName ("dir/file.pdf".toList) = some ("file".toList) := by
  constructor
  · exact (c5_scan_characterization.1 [("a.pdf".toList), ("b.txt".toList)]
      (fun _ => [0]) 7 (by decide)).trans (by decide)
  · exact c5_scan_characterization.2 ("dir".toList) ("file".toList)
      (by decide) (by decide) (by decide) (by decide) (by decide) (by decide)

/-- Claim C6: scanning the same (unchanged) blob store a second time
inserts zero new rows and leaves the repository exactly as the first run
left it, because the streaming upsert's existence check by storage path
skips every synthesized document (it can differ only in fresh id and
timestamp, never in path). -/
theorem c6_scan_idempotent (store : List (GoStr × Bool)) (rows0 : List Document)
    (u1 u2 : Nat → List Nat) (t1 t2 : Nat) (ds1 ds2 : List Document)
    (h1 : scanGo (listKeys store) u1 t1 = some ds1)
    (h2 : scanGo (listKeys store) u2 t2 = some ds2) :
    upsertStream (upsertStream rows0 ds1).1 ds2
      = ((upsertStream rows0 ds1).1, 0) := by
  apply upsert_noop
  intro d hd
  have hp1 := scanGo_paths (listKeys store) u1 t1 ds1 h1
  have hp2 := scanGo_paths (listKeys store) u2 t2 ds2 h2
  have hmm : d.path ∈ ds2.map fun d => d.path := List.mem_map_of_mem _ hd
  rw [hp2, ← hp1] at hmm
  obtain ⟨d1, hd1, hpath⟩ := List.mem_map.mp hmm
  rw [← hpath]
  exact upsert_covers ds1 rows0 d1 hd1

/-- Witness for C6 at the spec's example store (two runs with different
uuids and times). -/
theorem c6_scan_idempotent_witness :
    upsertStream
        (upsertStream [] [mkScanDoc ("a.pdf".toList) ("a".toList) [1] 10]).1
        [mkScanDoc ("a.pdf".toList) ("a".toList) [2] 20]
      = ((upsertStream [] [mkScanDoc ("a.pdf".toList) ("a".toList) [1] 10]).1, 0) :=
  c6_scan_idempotent
    [(("a.pdf".toList), false), (("b.txt".toList), false), (("c/".toList), true)]
    [] (fun _ => [1]) (fun _ => [2]) 10 20 _ _ (by decide) (by decide)

/-- Claim C7: an update request carrying a non-empty type outside
{book, paper} fails with the `unsupported type` validation error and the
repository rows are returned untouched — no update is attempted. -/
theorem c7_invalid_type_rejected (rows : List Document) (id : GoStr)
    (upd : Document) (now : Nat) (h1 : ¬ upd.type = [])
    (h2 : ¬ upd.type = bookStr) (h3 : ¬ upd.type = paperStr) :
    updateFields rows id upd now
      = (.error (.errNew ("unsupported type".toList)), rows) := by
  simp only [updateFields]
  rw [if_pos h1, if_neg (show ¬ (upd.type = bookStr ∨ upd.type = paperStr) by
    rintro (h | h)
    · exact h2 h
    · exact h3 h)]

/-- Witness for C7 at a concrete store and request. -/
theorem c7_invalid_type_rejected_witness :
    updateFields [zeroDoc] ("i".toList) { zeroDoc with type := "x".toList } 0
      = (.error (.errNew ("unsupported type".toList)), [zeroDoc]) :=
  c7_invalid_type_rejected [zeroDoc] ("i".toList)
    { zeroDoc with type := "x".toList } 0 (by decide) (by decide) (by decide)

/-- Claim C8: when only the description of the update request is non-empty,
the call succeeds with the stored record merged only in its description
(and refreshed update timestamp); the stored row's display name, type,
name, path and created timestamp are untouched. -/
theorem c8_description_only_merge (rows : List Document) (id : GoStr)
    (upd : Document) (now : Nat) (dOld : Document)
    (hmem : dOld ∈ rows) (hid : dOld.id = id)
    (huniq : ∀ r ∈ rows, r.id = id → r = dOld)
    (hdesc : ¬ upd.description = []) (hname : upd.displayName = [])
    (htype : upd.type = []) :
    updateFields rows id upd now
      = (.ok { dOld with description := upd.description },
         rows.map fun r =>
           if r.id = id then
             { r with description := upd.description, updated := some now }
           else r) := by
  have hfind := pgFindByID_unique rows dOld id hmem hid huniq
  simp only [updateFields, hfind]
  rw [if_pos hdesc, if_neg (show ¬ upd.displayName ≠ [] from fun hc => hc hname),
      if_neg (show ¬ upd.type ≠ [] from fun hc => hc htype)]
  simp only [pgUpdateDocument, Prod.mk.injEq]
  refine ⟨by trivial, ?_⟩
  apply List.map_congr_left
  intro r hr
  by_cases hrid : r.id = id
  · have hr2 : r = dOld := huniq r hr hrid
    subst hr2
    cases r with
    | mk i dn n p t de tg cr up =>
      simp only at hid
      simp [hid]
  · rw [if_neg hrid, if_neg (by
      intro hc
      apply hrid
      rw [hc]
      exact hid)]

/-- Witness for C8 at a concrete two-row store. -/
theorem c8_description_only_merge_witness :
    updateFields
        [{ zeroDoc with
            id := "a".toList,
            displayName := "Old".toList,
            type := "book".toList },
         { zeroDoc with id := "b".toList }]
        ("a".toList) { zeroDoc with description := "fresh".toList } 9
      = (.ok { zeroDoc with
                id := "a".toList,
                displayName := "Old".toList,
                type := "book".toList,
                description := "fresh".toList },
         [{ zeroDoc with
             id := "a".toList,
             displayName := "Old".toList,
             type := "book".toList,
             description := "fresh".toList,
             updated := some 9 },
          { zeroDoc with id := "b".toList }]) := by
  have h := c8_description_only_merge
    [{ zeroDoc with
        id := "a".toList,
        displayName := "Old".toList,
        type := "book".toList },
     { zeroDoc with id := "b".toList }]
    ("a".toList) { zeroDoc with description := "fresh".toList } 9
    { zeroDoc with
       id := "a".toList,
       displayName := "Old".toList,
       type := "book".toList }
    (by decide) (by decide) (by decide) (by decide) (by decide) (by decide)
  exact h.trans (by decide)

/-- Claim C9: every accepted `Add` yields a document with a non-empty
(uuid-formatted) identifier, equal created and updated stamps, and a type
equal to the caller's draft type; through the book service the type is
forced to `book` regardless of the draft. -/
theorem c9_add_success (st : SvcState) (f : MFile) (doc : Document)
    (ubytes : List Nat) (now : Nat) (hacc : (isSupported f).1 = true) :
    (∃ d, (serviceAdd st f doc ubytes now).1 = .ok d ∧
        ¬ d.id = [] ∧ d.updated = some d.created ∧ d.type = doc.type) ∧
    (∃ d, (bookAdd st f doc ubytes now).1 = .ok d ∧
        ¬ d.id = [] ∧ d.updated = some d.created ∧ d.type = bookStr) := by
  have hne : ¬ uuidFormat ubytes = [] := uuidFormat_ne_nil ubytes
  have hfalse : ¬ (isSupported f).1 = false := by simp [hacc]
  constructor
  · simp only [serviceAdd, if_neg hfalse]
    exact ⟨_, rfl, hne, rfl, rfl⟩
  · simp only [bookAdd, serviceAdd, if_neg hfalse]
    exact ⟨_, rfl, hne, rfl, rfl⟩

set_option maxRecDepth 8192 in
/-- Witness for C9 at a concrete accepted PDF stream. -/
theorem c9_add_success_witness :
    (∃ d, (serviceAdd ⟨[], []⟩ ⟨strBytes ("%PDF") ++ List.replicate 257 0, 0⟩
            zeroDoc [3] 5).1 = .ok d ∧
        ¬ d.id = [] ∧ d.updated = some d.created ∧ d.type = zeroDoc.type) ∧
    (∃ d, (bookAdd ⟨[], []⟩ ⟨strBytes ("%PDF") ++ List.replicate 257 0, 0⟩
            zeroDoc [3] 5).1 = .ok d ∧
        ¬ d.id = [] ∧ d.updated = some d.created ∧ d.type = bookStr) :=
  c9_add_success ⟨[], []⟩ ⟨strBytes ("%PDF") ++ List.replicate 257 0, 0⟩
    zeroDoc [3] 5 (by decide)

/-- Claim C10 (code bug in the scan's name derivation): the key `.pdf`
passes the extension filter, yet its derived intermediate name is the empty
string, so the code's unguarded `name[0]` indexes out of bounds — a runtime
panic, modelled as `none` — and the scan run over a store holding that key
yields no result. -/
theorem c10_scan_dot_pdf_out_of_bounds :
    filepathExt (".pdf".toList) = pdfExt ∧
      deriveName (".pdf".toList) = none ∧
      scanGo [(".pdf".toList)] (fun _ => [0]) 0 = none := by
  decide

end BookOrganizer
